import Mathlib

/-!
Verification development for the TIS langflow components repository.

This file gives a shallow embedding of the logic of
  src/langflow/src/tis_components/tis_mongodb.py   (TisMongoDBComponent)
  src/langflow/src/tis_components/tis_pgvector.py  (TisVectorStore)
  src/langflow/src/tis_components/tis_redis.py     (TisRedisComponent)
and proves properties of the embedded definitions.

Modelling conventions:
* Python dicts holding parsed JSON are modelled by the inductive type Json
  below; dict insertion order is modelled by association lists, with
  re-insertion of an existing key keeping its original position (setKey).
* JSON numbers are modelled at integer precision only; floating-point
  literals are outside the scope of the model.
* External stores (MongoDB collections, PostgreSQL tables, Redis) are
  modelled by in-memory list states; driver-level failures that the code
  catches are modelled by Except results or by oracle parameters.
* MongoDB regular-expression matching ($regex with the i option) is
  modelled by a small PCRE-subset matcher defined below: the pattern string
  is parsed into a regular expression and matched, unanchored and
  case-insensitively, against the field value.
-/

/-- Parsed JSON value, as produced by Python json.loads.  Objects are
association lists in insertion order; numbers are modelled as integers. -/
inductive Json where
  | null : Json
  | bool (b : Bool) : Json
  | num (n : Int) : Json
  | str (s : String) : Json
  | arr (xs : List Json) : Json
  | obj (kvs : List (String × Json)) : Json
deriving Repr

mutual

/-- Decidable equality worker for Json. -/
def Json.beq : Json → Json → Bool
  | .null, .null => true
  | .bool a, .bool b => a == b
  | .num a, .num b => a == b
  | .str a, .str b => a == b
  | .arr a, .arr b => Json.beqArr a b
  | .obj a, .obj b => Json.beqObj a b
  | _, _ => false

/-- Decidable equality worker for JSON arrays. -/
def Json.beqArr : List Json → List Json → Bool
  | [], [] => true
  | x :: xs, y :: ys => Json.beq x y && Json.beqArr xs ys
  | _, _ => false

/-- Decidable equality worker for JSON object member lists. -/
def Json.beqObj : List (String × Json) → List (String × Json) → Bool
  | [], [] => true
  | (k1, v1) :: xs, (k2, v2) :: ys => k1 == k2 && Json.beq v1 v2 && Json.beqObj xs ys
  | _, _ => false

end

instance : BEq Json := ⟨Json.beq⟩

mutual

theorem Json.beq_iff : ∀ a b : Json, Json.beq a b = true ↔ a = b
  | .null, b => by cases b <;> simp [Json.beq]
  | .bool x, b => by cases b <;> simp [Json.beq]
  | .num x, b => by cases b <;> simp [Json.beq]
  | .str x, b => by cases b <;> simp [Json.beq]
  | .arr xs, b => by
      cases b <;> simp [Json.beq]
      exact Json.beqArr_iff xs _
  | .obj kvs, b => by
      cases b <;> simp [Json.beq]
      exact Json.beqObj_iff kvs _

theorem Json.beqArr_iff : ∀ a b : List Json, Json.beqArr a b = true ↔ a = b
  | [], b => by cases b <;> simp [Json.beqArr]
  | x :: xs, b => by
      cases b with
      | nil => simp [Json.beqArr]
      | cons y ys =>
          simp [Json.beqArr, Bool.and_eq_true, Json.beq_iff x y, Json.beqArr_iff xs ys]

theorem Json.beqObj_iff : ∀ a b : List (String × Json), Json.beqObj a b = true ↔ a = b
  | [], b => by cases b <;> simp [Json.beqObj]
  | (k, v) :: xs, b => by
      cases b with
      | nil => simp [Json.beqObj]
      | cons y ys =>
          obtain ⟨k2, v2⟩ := y
          simp [Json.beqObj, Bool.and_eq_true, Json.beq_iff v v2, Json.beqObj_iff xs ys,
            and_assoc]

end

instance : DecidableEq Json := fun a b =>
  decidable_of_iff (Json.beq a b = true) (Json.beq_iff a b)

/-- Python dict assignment d[k] = v on an insertion-ordered association
list: an existing key keeps its position and gets the new value, a new key
is appended at the end. -/
def setKey (k : String) (v : Json) : List (String × Json) → List (String × Json)
  | [] => [(k, v)]
  | (k0, v0) :: t => if k0 = k then (k, v) :: t else (k0, v0) :: setKey k v t

/-- Python dict lookup (first binding of the key). -/
def lookupKey (kvs : List (String × Json)) (k : String) : Option Json :=
  (kvs.find? (fun p => p.1 = k)).map (fun p => p.2)

/-- Python str.strip whitespace characters. -/
def pyWsChar (c : Char) : Bool :=
  c = ' ' || c = '\t' || c = '\n' || c = '\r' || c = '\x0b' || c = '\x0c'

/-- Python str.strip(): drop whitespace from both ends. -/
def pyStrip (s : String) : String :=
  String.mk (((s.data.dropWhile pyWsChar).reverse.dropWhile pyWsChar).reverse)

/-- Character-wise lowercasing (ASCII case folding). -/
def lowerStr (s : String) : String := String.mk (s.data.map Char.toLower)

/-- Python int(str): optional surrounding whitespace, optional sign, then
decimal digits (digit-group underscores are outside the model's scope). -/
def pyInt (s : String) : Option Int :=
  let t := pyStrip s
  let core : Option (Int × List Char) :=
    match t.data with
    | '+' :: r => some (1, r)
    | '-' :: r => some (-1, r)
    | r => some (1, r)
  match core with
  | some (sign, ds) =>
    if ds ≠ [] ∧ ds.all Char.isDigit then
      some (sign * (ds.foldl (fun acc c => acc * 10 + (Int.ofNat (c.toNat - '0'.toNat))) 0))
    else
      none
  | none => none

/-! JSON parsing, modelling Python json.loads (strict mode).  Fuel-indexed
recursive descent over the character list; the fuel is strictly consumed on
every recursive call and is chosen large enough at the top entry point. -/

/-- JSON whitespace characters accepted between tokens by json.loads. -/
def jsonWs (c : Char) : Bool :=
  c = ' ' || c = '\t' || c = '\n' || c = '\r'

/-- Skip JSON inter-token whitespace. -/
def skipWs (cs : List Char) : List Char := cs.dropWhile jsonWs

/-- Hex digit value, if any. -/
def hexVal (c : Char) : Option Nat :=
  if '0' ≤ c ∧ c ≤ '9' then some (c.toNat - '0'.toNat)
  else if 'a' ≤ c ∧ c ≤ 'f' then some (c.toNat - 'a'.toNat + 10)
  else if 'A' ≤ c ∧ c ≤ 'F' then some (c.toNat - 'A'.toNat + 10)
  else none

/-- Parse the body of a JSON string after the opening quote, handling the
escape sequences of strict json.loads; returns the decoded string and the
remaining input after the closing quote.  Unescaped control characters are
rejected, as in strict mode.  Surrogate-pair recombination for the u escape
is outside the model's scope. -/
def parseStrBody : List Char → Option (String × List Char)
  | [] => none
  | '"' :: r => some ("", r)
  | '\\' :: 'u' :: a :: b :: c :: d :: r => do
    let ha ← hexVal a
    let hb ← hexVal b
    let hc ← hexVal c
    let hd ← hexVal d
    let (s, rest) ← parseStrBody r
    some (String.mk (Char.ofNat (((ha * 16 + hb) * 16 + hc) * 16 + hd) :: s.data), rest)
  | '\\' :: e :: r => do
    let c ←
      match e with
      | '"' => some '"'
      | '\\' => some '\\'
      | '/' => some '/'
      | 'b' => some (Char.ofNat 8)
      | 'f' => some (Char.ofNat 12)
      | 'n' => some '\n'
      | 'r' => some '\r'
      | 't' => some '\t'
      | _ => none
    let (s, rest) ← parseStrBody r
    some (String.mk (c :: s.data), rest)
  | c :: r =>
    if c.toNat < 32 then none
    else do
      let (s, rest) ← parseStrBody r
      some (String.mk (c :: s.data), rest)

/-- Decimal value of a digit list. -/
def digitsVal (ds : List Char) : Int :=
  ds.foldl (fun acc c => acc * 10 + (Int.ofNat (c.toNat - '0'.toNat))) 0

/-- Parse a JSON integer literal (JSON grammar: optional minus, then 0 or a
nonzero-led digit run).  A following fraction or exponent marker makes the
parse fail: float literals are outside the model's scope. -/
def parseNum (cs : List Char) : Option (Json × List Char) :=
  let (neg, rest) :=
    match cs with
    | '-' :: r => (true, r)
    | r => (false, r)
  let ds := rest.takeWhile Char.isDigit
  let after := rest.dropWhile Char.isDigit
  if ds = [] then none
  else if ds.length > 1 ∧ ds.head? = some '0' then none
  else
    match after with
    | '.' :: _ => none
    | 'e' :: _ => none
    | 'E' :: _ => none
    | _ =>
      let v := digitsVal ds
      some (.num (if neg then -v else v), after)

/-- Parsing mode of the JSON parser: a value, the members of an array, or
the members of an object (with the members accumulated so far). -/
inductive PMode where
  | val : PMode
  | arrItems (acc : List Json) : PMode
  | objItems (acc : List (String × Json)) : PMode

/-- The fuel-indexed JSON parser.  In val mode it parses one value; in
arrItems mode the members of an array after the opening bracket; in
objItems mode the members of an object after the opening brace (duplicate
keys overwrite in place, as in Python dict construction). -/
def parseF : Nat → PMode → List Char → Option (Json × List Char)
  | 0, _, _ => none
  | fuel + 1, .val, cs =>
    match skipWs cs with
    | [] => none
    | '"' :: r => do
      let (s, rest) ← parseStrBody r
      some (.str s, rest)
    | '\x7b' :: r =>
      (match skipWs r with
       | '\x7d' :: r2 => some (.obj [], r2)
       | _ => parseF fuel (.objItems []) r)
    | '[' :: r =>
      (match skipWs r with
       | ']' :: r2 => some (.arr [], r2)
       | _ => parseF fuel (.arrItems []) r)
    | 't' :: 'r' :: 'u' :: 'e' :: r => some (.bool true, r)
    | 'f' :: 'a' :: 'l' :: 's' :: 'e' :: r => some (.bool false, r)
    | 'n' :: 'u' :: 'l' :: 'l' :: r => some (.null, r)
    | cs2 => parseNum cs2
  | fuel + 1, .arrItems acc, cs => do
    let (v, r1) ← parseF fuel .val cs
    match skipWs r1 with
    | ',' :: r2 => parseF fuel (.arrItems (acc ++ [v])) r2
    | ']' :: r2 => some (.arr (acc ++ [v]), r2)
    | _ => none
  | fuel + 1, .objItems acc, cs =>
    match skipWs cs with
    | '"' :: r => do
      let (k, r1) ← parseStrBody r
      match skipWs r1 with
      | ':' :: r2 => do
        let (v, r3) ← parseF fuel .val r2
        let acc2 := setKey k v acc
        match skipWs r3 with
        | ',' :: r4 => parseF fuel (.objItems acc2) r4
        | '\x7d' :: r4 => some (.obj acc2, r4)
        | _ => none
      | _ => none
    | _ => none

/-- Parse a JSON value (fuel-indexed). -/
def parseVal (fuel : Nat) (cs : List Char) : Option (Json × List Char) :=
  parseF fuel .val cs

/-- Model of Python json.loads on a whole string: parse one value and
require only whitespace to remain. -/
def parseJson (s : String) : Option Json :=
  match parseVal (2 * s.data.length + 8) s.data with
  | some (j, rest) => if skipWs rest = [] then some j else none
  | none => none

/-! Intent detection: TisMongoDBComponent._detect_intent
(src/langflow/src/tis_components/tis_mongodb.py). -/

/-- Result of _detect_intent: the operation tag together with its payload
(the parsed value for store, the query text for search). -/
inductive Intent where
  | empty : Intent
  | store (j : Json) : Intent
  | search (q : String) : Intent
deriving DecidableEq, Repr

/-- Shallow embedding of TisMongoDBComponent._detect_intent: empty or
whitespace-only input is classified empty; otherwise the stripped input is
classified store if it parses as JSON (with an initial shortcut attempt for
brace-delimited input, then an unconditional attempt), and search (carrying
the stripped text) otherwise. -/
def detect_intent (user_input : String) : Intent :=
  if pyStrip user_input = "" then .empty
  else
    let t := pyStrip user_input
    if t.data.head? = some '\x7b' && t.data.getLast? = some '\x7d' then
      match parseJson t with
      | some j => .store j
      | none =>
        match parseJson t with
        | some j => .store j
        | none => .search t
    else
      match parseJson t with
      | some j => .store j
      | none => .search t

/-! Content derivation: TisMongoDBComponent._extract_content.  The Python
code renders values through f-strings (str()), joins list-valued tags with
", ", and falls back to json.dumps of the whole mapping.  String escaping
inside repr/dumps output is outside the model's scope. -/

/-- Comma-space join of rendered items. -/
def joinComma (xs : List String) : String := String.intercalate ", " xs

/-- Python str.join on a separator. -/
def joinSep (sep : String) : List String → String
  | [] => ""
  | [x] => x
  | x :: y :: ys => x ++ sep ++ joinSep sep (y :: ys)

mutual

/-- Python repr() of a parsed-JSON value (as used for values nested inside
containers rendered by str()). -/
def pyRepr : Json → String
  | .null => "None"
  | .bool true => "True"
  | .bool false => "False"
  | .num n => toString n
  | .str s => "'" ++ s ++ "'"
  | .arr xs => "[" ++ joinComma (pyReprArr xs) ++ "]"
  | .obj kvs => "\x7b" ++ joinComma (pyReprObj kvs) ++ "\x7d"

/-- repr of each member of a Python list. -/
def pyReprArr : List Json → List String
  | [] => []
  | x :: xs => pyRepr x :: pyReprArr xs

/-- repr of each member of a Python dict. -/
def pyReprObj : List (String × Json) → List String
  | [] => []
  | (k, v) :: kvs => ("'" ++ k ++ "': " ++ pyRepr v) :: pyReprObj kvs

end

/-- Python str() of a parsed-JSON value, as applied by an f-string:
strings render as themselves, containers render via repr. -/
def pyStr : Json → String
  | .str s => s
  | v => pyRepr v

mutual

/-- Model of json.dumps on a parsed-JSON value (default separators). -/
def dumps : Json → String
  | .null => "null"
  | .bool true => "true"
  | .bool false => "false"
  | .num n => toString n
  | .str s => "\"" ++ s ++ "\""
  | .arr xs => "[" ++ joinComma (dumpsArr xs) ++ "]"
  | .obj kvs => "\x7b" ++ joinComma (dumpsObj kvs) ++ "\x7d"

/-- dumps of each member of a JSON array. -/
def dumpsArr : List Json → List String
  | [] => []
  | x :: xs => dumps x :: dumpsArr xs

/-- dumps of each member of a JSON object. -/
def dumpsObj : List (String × Json) → List String
  | [] => []
  | (k, v) :: kvs => ("\"" ++ k ++ "\": " ++ dumps v) :: dumpsObj kvs

end

/-- Rendering of the tags value: a Python list is joined with ", "
(raising TypeError when an element is not a string, modelled as an error);
any other value renders through str(). -/
def renderTags : Json → Except String String
  | .arr xs =>
    let rec strsOf : List Json → Except String (List String)
      | [] => .ok []
      | .str s :: t => do
        let r ← strsOf t
        .ok (s :: r)
      | _ :: _ => .error "TypeError: sequence item: expected str instance"
    do
      let ss ← strsOf xs
      .ok (joinComma ss)
  | v => .ok (pyStr v)

/-- Shallow embedding of TisMongoDBComponent._extract_content: build the
labelled parts for the recognized keys in the code's fixed order, fall back
to json.dumps of the whole mapping when no part was produced, and join the
parts with " | ". -/
def extract_content (o : List (String × Json)) : Except String String := do
  let parts0 : List String := []
  let parts1 :=
    match lookupKey o "title" with
    | some v => parts0 ++ ["Title: " ++ pyStr v]
    | none => parts0
  let parts2 :=
    match lookupKey o "description" with
    | some v => parts1 ++ ["Description: " ++ pyStr v]
    | none => parts1
  let parts3 :=
    match lookupKey o "code" with
    | some v => parts2 ++ ["Code: " ++ pyStr v]
    | none => parts2
  let parts4 :=
    match lookupKey o "content" with
    | some v => parts3 ++ ["Content: " ++ pyStr v]
    | none => parts3
  let parts5 :=
    match lookupKey o "language" with
    | some v => parts4 ++ ["Language: " ++ pyStr v]
    | none => parts4
  let parts6 ←
    match lookupKey o "tags" with
    | some v => do
      let t ← renderTags v
      pure (parts5 ++ ["Tags: " ++ t])
    | none => pure parts5
  let parts := if parts6 = [] then [dumps (.obj o)] else parts6
  pure (joinSep " | " parts)

/-- The recognized keys with their labels, in the order fixed by the claim
(title, description, code, content, language, tags). -/
def claimKeys : List (String × String) :=
  [("title", "Title"), ("description", "Description"), ("code", "Code"),
   ("content", "Content"), ("language", "Language"), ("tags", "Tags")]

/-- Rendering of one recognized field per the claim: its label, a colon,
and the rendered value (tags rendered by list join). -/
def claimField (k : String) (v : Json) : Except String String :=
  if k = "tags" then renderTags v else .ok (pyStr v)

/-- Claim-side derivation of the content parts: walk the recognized keys in
their fixed order, keeping a labelled part for each key present. -/
def claimParts : List (String × String) → List (String × Json) → Except String (List String)
  | [], _ => .ok []
  | (k, lab) :: rest, o =>
    match lookupKey o k with
    | some v => do
      let s ← claimField k v
      let tl ← claimParts rest o
      pure ((lab ++ ": " ++ s) :: tl)
    | none => claimParts rest o

/-- Claim-side derived content string: the labelled parts of the recognized
keys present, joined with " | ", falling back to the raw serialization of
the whole mapping when no recognized key is present. -/
def claimDerivedContent (o : List (String × Json)) : Except String String := do
  let parts ← claimParts claimKeys o
  pure (joinSep " | " (if parts = [] then [dumps (.obj o)] else parts))

/-! A PCRE-subset regular-expression matcher, modelling the MongoDB
$regex operator used by TisMongoDBComponent._search_documents.  Supported
constructs: literal characters, escaped punctuation, the dot, groups,
alternation, and the three quantifiers; other constructs make the pattern
parse fail (modelling a server-side invalid-pattern error). -/

/-- Regular expressions over characters. -/
inductive Rx where
  | zero : Rx
  | eps : Rx
  | chr (c : Char) : Rx
  | any : Rx
  | alt (a b : Rx) : Rx
  | cat (a b : Rx) : Rx
  | star (a : Rx) : Rx
deriving DecidableEq, Repr

/-- Does the expression accept the empty string. -/
def Rx.nullable : Rx → Bool
  | .zero => false
  | .eps => true
  | .chr _ => false
  | .any => false
  | .alt a b => a.nullable || b.nullable
  | .cat a b => a.nullable && b.nullable
  | .star _ => true

/-- Alternation, simplified against the empty language. -/
def mkAlt : Rx → Rx → Rx
  | .zero, b => b
  | a, .zero => a
  | a, b => .alt a b

/-- Concatenation, simplified against the empty language and string. -/
def mkCat : Rx → Rx → Rx
  | .zero, _ => .zero
  | _, .zero => .zero
  | .eps, b => b
  | a, .eps => a
  | a, b => .cat a b

/-- Brzozowski derivative with respect to one character. -/
def Rx.deriv : Rx → Char → Rx
  | .zero, _ => .zero
  | .eps, _ => .zero
  | .chr c, x => if x = c then .eps else .zero
  | .any, _ => .eps
  | .alt a b, x => mkAlt (a.deriv x) (b.deriv x)
  | .cat a b, x =>
    if a.nullable then mkAlt (mkCat (a.deriv x) b) (b.deriv x)
    else mkCat (a.deriv x) b
  | .star a, x => mkCat (a.deriv x) (.star a)

/-- Anchored match of an expression against a whole character list. -/
def rxMatch (r : Rx) : List Char → Bool
  | [] => r.nullable
  | c :: cs => rxMatch (r.deriv c) cs

/-- Unanchored search: the expression matches some contiguous segment
(a prefix of some suffix) of the character list. -/
def searchMatch (r : Rx) (cs : List Char) : Bool :=
  cs.tails.any (fun t => t.inits.any (fun u => rxMatch r u))

/-- The literal expression of a character list. -/
def litRx : List Char → Rx
  | [] => .eps
  | c :: cs => .cat (.chr c) (litRx cs)

/-- Characters that are PCRE metacharacters (or open unsupported
constructs) for the matcher's pattern subset. -/
def rxMeta : List Char :=
  ['\\', '^', '$', '.', '|', '?', '*', '+', '(', ')', '[', ']', '\x7b', '\x7d']

/-- A pattern string that is free of metacharacters, hence denotes an exact
substring search. -/
def rxLiteralPattern (q : String) : Bool :=
  q.data.all (fun c => decide (c ∉ rxMeta))

/-- Apply an optional postfix quantifier to a parsed atom. -/
def applyQuant (r : Rx) (cs : List Char) : Rx × List Char :=
  match cs with
  | [] => (r, cs)
  | c :: rest =>
    if c = '*' then (.star r, rest)
    else if c = '+' then (.cat r (.star r), rest)
    else if c = '?' then (.alt r .eps, rest)
    else (r, cs)

/-- Parsing mode of the pattern parser: an alternation, a concatenation,
or one atom. -/
inductive RMode where
  | alt : RMode
  | cat : RMode
  | atom : RMode
deriving DecidableEq, Repr

/-- The fuel-indexed pattern parser.  In alt mode it parses an alternation
of concatenations; in cat mode a concatenation of quantified atoms; in
atom mode one atom: a group, the dot, an escaped punctuation character, or
a plain character. -/
def parseRxF : Nat → RMode → List Char → Option (Rx × List Char)
  | 0, _, _ => none
  | fuel + 1, .alt, cs => do
    let (a, r1) ← parseRxF fuel .cat cs
    match r1 with
    | '|' :: r2 => do
      let (b, r3) ← parseRxF fuel .alt r2
      some (.alt a b, r3)
    | _ => some (a, r1)
  | fuel + 1, .cat, cs =>
    match cs with
    | [] => some (.eps, [])
    | c :: _ =>
      if c = '|' ∨ c = ')' then some (.eps, cs)
      else do
        let (a, r1) ← parseRxF fuel .atom cs
        let (a2, r2) := applyQuant a r1
        let (b, r3) ← parseRxF fuel .cat r2
        some (.cat a2 b, r3)
  | _ + 1, .atom, [] => none
  | fuel + 1, .atom, c :: rest =>
    if c = '(' then
      match parseRxF fuel .alt rest with
      | some (a, ')' :: r2) => some (a, r2)
      | _ => none
    else if c = '.' then some (.any, rest)
    else if c = '\\' then
      match rest with
      | e :: r2 => if e.isAlphanum then none else some (.chr e, r2)
      | [] => none
    else if c ∈ rxMeta then none
    else some (.chr c, rest)

/-- Parse an alternation (fuel-indexed). -/
def parseAltF (fuel : Nat) (cs : List Char) : Option (Rx × List Char) :=
  parseRxF fuel .alt cs

/-- Parse a whole pattern string into a regular expression; none models a
pattern the server rejects (or one outside the supported subset). -/
def parseRx (pat : String) : Option Rx :=
  match parseAltF (4 * pat.data.length + 8) pat.data with
  | some (r, []) => some r
  | _ => none

/-! The MongoDB component's store and search operations
(TisMongoDBComponent._store_document and _search_documents). -/

/-- A stored MongoDB document: the fields written by _store_document,
with the creation timestamp modelled as a strictly increasing logical
clock value. -/
structure MDoc where
  source : String
  content : String
  created_at : Nat
  metadata : List (String × Json)
deriving DecidableEq, Repr

/-- The MongoDB collection state: the stored documents plus the logical
clock used for creation timestamps. -/
structure MongoState where
  docs : List MDoc
  clock : Nat
deriving DecidableEq, Repr

/-- Well-formedness: every stored timestamp is in the clock's past. -/
def MongoState.Wf (st : MongoState) : Prop :=
  ∀ d ∈ st.docs, d.created_at < st.clock

/-- Shallow embedding of _store_document: derive the content string from
the mapping, and insert a document carrying the fixed source label, the
derived content, the creation timestamp and the original mapping as
metadata.  Content-derivation errors surface as the operation's error. -/
def store_document (st : MongoState) (json_data : List (String × Json)) :
    Except String (MDoc × MongoState) :=
  match extract_content json_data with
  | .error e => .error ("❌ Error storing document: " ++ e)
  | .ok c =>
    let d : MDoc := ⟨"langflow_tis_smart", c, st.clock, json_data⟩
    .ok (d, ⟨st.docs ++ [d], st.clock + 1⟩)

/-- MongoDB $regex condition on one field value: a string matches if the
expression is found in it (case-insensitively: values are lowered, and the
pattern was lowered before parsing); an array matches if some string
element matches; other values do not match. -/
def mongoFieldTest (r : Rx) : Json → Bool
  | .str s => searchMatch r (lowerStr s).data
  | .arr xs =>
    xs.any (fun v =>
      match v with
      | .str s => searchMatch r (lowerStr s).data
      | _ => false)
  | _ => false

/-- The metadata fields enumerated in the search's or-condition list. -/
def mongoMetaFields : List String :=
  ["title", "description", "code", "tags", "language", "category", "type"]

/-- One document satisfies the search's or-condition: the pattern is found
in the content field or in one of the listed metadata fields. -/
def docMatches (r : Rx) (d : MDoc) : Bool :=
  searchMatch r (lowerStr d.content).data ||
  mongoMetaFields.any (fun k =>
    match lookupKey d.metadata k with
    | some v => mongoFieldTest r v
    | none => false)

/-- Sort matching documents by creation time, newest first. -/
def sortByRecency (l : List MDoc) : List MDoc :=
  List.insertionSort (fun a b => b.created_at ≤ a.created_at) l

/-- MongoDB cursor limit: a zero limit means no limit; a negative limit
caps at the magnitude. -/
def mongoLimit (n : Int) (l : List MDoc) : List MDoc :=
  if n = 0 then l else l.take n.natAbs

/-- Shallow embedding of _search_documents: parse the configured result
limit, treat the query as a case-insensitive regular expression over the
content and metadata fields, and return the matches sorted by recency and
capped at the limit.  An unparseable limit or pattern is the operation's
error, as in the code's catch-all handler. -/
def search_documents (st : MongoState) (query : String) (search_limit : String) :
    Except String (List MDoc) :=
  match pyInt search_limit with
  | none => .error "❌ Error searching: invalid literal for int()"
  | some lim =>
    match parseRx (lowerStr query) with
    | none => .error "❌ Error searching: invalid regular expression"
    | some r =>
      .ok (mongoLimit lim (sortByRecency (st.docs.filter (docMatches r))))

/-! The PostgreSQL vector store: TisVectorStore in
src/langflow/src/tis_components/tis_pgvector.py.  Statement-level failures
are modelled by a schema descriptor: an INSERT naming an absent column
fails, and each table additionally carries a flag for whether its minimal
insert succeeds at all (modelling constraint-style failures the code's
catch-alls also cover).  One connection's uncommitted work is modelled by
threading the state through the steps and returning the original state on
rollback. -/

/-- Which optional columns each table has, and whether each table accepts
inserts at all. -/
structure Schema where
  doc_source : Bool
  doc_metadata : Bool
  emb_model_id : Bool
  model_dim : Bool
  doc_insert_ok : Bool
  emb_insert_ok : Bool
  model_insert_ok : Bool
deriving DecidableEq, Repr

/-- A row of the documents table. -/
structure PGDoc where
  id : Nat
  source : Option String
  content : String
  metadata : Option (List (String × Json))
deriving DecidableEq, Repr

/-- A row of the embeddings table. -/
structure PGEmb where
  document_id : Nat
  model_id : Option Nat
  embedding : List Int
deriving DecidableEq, Repr

/-- A row of the embedding-models table. -/
structure PGModelRow where
  id : Nat
  name : String
  dimension : Option Int
  notes : Option String
deriving DecidableEq, Repr

/-- The relational store state, with the sequences backing the two
RETURNING id inserts. -/
structure PGState where
  models : List PGModelRow
  documents : List PGDoc
  embeddings : List PGEmb
  next_model_id : Nat
  next_doc_id : Nat
deriving DecidableEq, Repr

/-- A LangChain document handed to add_documents. -/
structure LCDoc where
  page_content : String
  metadata : List (String × Json)
deriving DecidableEq, Repr

/-- The LangChain-compatible result object built by similarity_search. -/
structure MockDocument where
  page_content : String
  metadata : List (String × Json)
deriving DecidableEq, Repr

/-- The deterministically derived embedding-model name for a dimension. -/
def modelName (dim : Int) : String := "langflow-" ++ toString dim ++ "d"

/-- Shallow embedding of TisVectorStore._ensure_model_exists: look the
model record up by its derived name; when absent, insert it with the full
column layout (name, dimension, notes), falling back to the name-only
layout; when both inserts fail the driver error propagates. -/
def ensure_model_exists (sch : Schema) (dim : Int) (st : PGState) :
    Except String (Nat × PGState) :=
  match st.models.find? (fun m => m.name = modelName dim) with
  | some m => .ok (m.id, st)
  | none =>
    if sch.model_dim && sch.model_insert_ok then
      let row : PGModelRow :=
        ⟨st.next_model_id, modelName dim, some dim,
         some ("Langflow " ++ toString dim ++ "D embeddings")⟩
      .ok (st.next_model_id,
           { st with models := st.models ++ [row], next_model_id := st.next_model_id + 1 })
    else if sch.model_insert_ok then
      let row : PGModelRow := ⟨st.next_model_id, modelName dim, none, none⟩
      .ok (st.next_model_id,
           { st with models := st.models ++ [row], next_model_id := st.next_model_id + 1 })
    else
      .error "models insert failed"

/-- The three column layouts tried for a document insert, richest first. -/
inductive DocLayout where
  | rich : DocLayout
  | narrow : DocLayout
  | minimal : DocLayout
deriving DecidableEq, Repr

/-- Whether one document-insert attempt succeeds against the schema: all
columns the layout names must exist and the insert must be accepted. -/
def docLayoutOk (sch : Schema) : DocLayout → Bool
  | .rich => sch.doc_source && sch.doc_metadata && sch.doc_insert_ok
  | .narrow => sch.doc_source && sch.doc_insert_ok
  | .minimal => sch.doc_insert_ok

/-- The document row a given layout writes. -/
def docRowFor (source_name : String) (st : PGState) (d : LCDoc) : DocLayout → PGDoc
  | .rich => ⟨st.next_doc_id, some source_name, d.page_content, some d.metadata⟩
  | .narrow => ⟨st.next_doc_id, some source_name, d.page_content, none⟩
  | .minimal => ⟨st.next_doc_id, none, d.page_content, none⟩

/-- Append a document row, advancing the id sequence. -/
def pushDoc (st : PGState) (row : PGDoc) : PGState :=
  { st with documents := st.documents ++ [row], next_doc_id := st.next_doc_id + 1 }

/-- Shallow embedding of TisVectorStore._insert_document, also recording
the attempted layouts in order: the rich layout (source, content,
metadata) first, then (source, content), then (content); the first
success returns the new row's id. -/
def insert_document (sch : Schema) (source_name : String) (st : PGState) (d : LCDoc) :
    Except String (Nat × PGState) × List DocLayout :=
  if docLayoutOk sch .rich then
    (.ok (st.next_doc_id, pushDoc st (docRowFor source_name st d .rich)), [.rich])
  else if docLayoutOk sch .narrow then
    (.ok (st.next_doc_id, pushDoc st (docRowFor source_name st d .narrow)), [.rich, .narrow])
  else if docLayoutOk sch .minimal then
    (.ok (st.next_doc_id, pushDoc st (docRowFor source_name st d .minimal)),
     [.rich, .narrow, .minimal])
  else
    (.error "documents insert failed", [.rich, .narrow, .minimal])

/-- The two column layouts tried for an embedding insert, richest first. -/
inductive EmbLayout where
  | full : EmbLayout
  | narrow : EmbLayout
deriving DecidableEq, Repr

/-- Whether one embedding-insert attempt succeeds against the schema. -/
def embLayoutOk (sch : Schema) : EmbLayout → Bool
  | .full => sch.emb_model_id && sch.emb_insert_ok
  | .narrow => sch.emb_insert_ok

/-- Shallow embedding of TisVectorStore._insert_embedding with its
attempted layouts: (document_id, model_id, embedding) first, then
(document_id, embedding). -/
def insert_embedding (sch : Schema) (st : PGState) (document_id model_id : Nat)
    (embedding_vector : List Int) : Except String PGState × List EmbLayout :=
  if embLayoutOk sch .full then
    (.ok { st with embeddings := st.embeddings ++ [⟨document_id, some model_id, embedding_vector⟩] },
     [.full])
  else if embLayoutOk sch .narrow then
    (.ok { st with embeddings := st.embeddings ++ [⟨document_id, none, embedding_vector⟩] },
     [.full, .narrow])
  else
    (.error "embeddings insert failed", [.full, .narrow])

/-- The per-pair loop of add_documents: insert each document, then its
embedding, collecting the new ids. -/
def addLoop (sch : Schema) (source_name : String) (mid : Nat) :
    PGState → List (LCDoc × List Int) → Except String (List Nat × PGState)
  | st, [] => .ok ([], st)
  | st, (d, v) :: rest =>
    match (insert_document sch source_name st d).1 with
    | .error e => .error e
    | .ok (did, st1) =>
      match (insert_embedding sch st1 did mid v).1 with
      | .error e => .error e
      | .ok st2 =>
        match addLoop sch source_name mid st2 rest with
        | .error e => .error e
        | .ok (ids, st3) => .ok (did :: ids, st3)

/-- Shallow embedding of TisVectorStore.add_documents: an empty batch
returns immediately; otherwise the model lookup-or-create, the per-pair
document and embedding inserts, and the commit all happen on one
connection, and any failure rolls the whole transaction back (the
returned state is the entry state).  The embedding model is an oracle
that may fail; documents are paired with embeddings by zip as in the
code. -/
def add_documents (sch : Schema) (source_name : String) (dim : Int)
    (embed_documents : List String → Except String (List (List Int)))
    (st : PGState) (documents : List LCDoc) : Except String (List Nat) × PGState :=
  if documents = [] then (.ok [], st)
  else
    let work : Except String (List Nat × PGState) :=
      match ensure_model_exists sch dim st with
      | .error e => .error e
      | .ok (mid, st1) =>
        match embed_documents (documents.map (fun d => d.page_content)) with
        | .error e => .error e
        | .ok embeddings_list => addLoop sch source_name mid st1 (documents.zip embeddings_list)
    match work with
    | .ok (ids, st2) => (.ok ids, st2)
    | .error e => (.error ("Failed to add documents: " ++ e), st)

/-- No orphaned vectors: every embedding row references a document row
that exists. -/
def NoOrphans (st : PGState) : Prop :=
  ∀ e ∈ st.embeddings, ∃ d ∈ st.documents, d.id = e.document_id

/-- One row of the similarity-search join: document content and metadata
plus the computed distance. -/
structure SearchRow where
  content : String
  metadata : List (String × Json)
  distance : Int
deriving DecidableEq, Repr

/-- The join of the embeddings table with the documents table on
document_id, with the distance of each embedding to the query vector.
Duplicate document ids are outside the model's scope (the first matching
document row is used). -/
def joinRows (dist : List Int → List Int → Int) (qv : List Int) (st : PGState) :
    List SearchRow :=
  st.embeddings.filterMap (fun e =>
    (st.documents.find? (fun d => d.id = e.document_id)).map (fun d =>
      ⟨d.content, d.metadata.getD [], dist qv e.embedding⟩))

/-- ORDER BY distance (ascending). -/
def sortRows (l : List SearchRow) : List SearchRow :=
  List.insertionSort (fun a b => a.distance ≤ b.distance) l

/-- The rows the search query returns: the join, ordered by distance,
capped by LIMIT k. -/
def searchRows (dist : List Int → List Int → Int) (qv : List Int) (st : PGState)
    (k : Nat) : List SearchRow :=
  (sortRows (joinRows dist qv st)).take k

/-- The rendered distance list of the returned rows. -/
def renderDistances (rows : List SearchRow) : String :=
  "[" ++ joinComma (rows.map (fun r => toString r.distance)) ++ "]"

/-- The debug string written into the first result's metadata. -/
def debugInfo (rows : List SearchRow) : String :=
  "Found " ++ toString rows.length ++ " results, distances: " ++ renderDistances rows

/-- Shallow embedding of TisVectorStore.similarity_search: fail when the
embeddings table is empty; compute the query embedding (an oracle that may
fail); run the join-order-limit query (which needs the documents metadata
column, as the SELECT names it); fail when it returns no rows; otherwise
build the result objects and write the debug string into the first
result's metadata.  Every failure is rewrapped with the "Search debug"
prefix by the method's catch-all handler.  LIMIT values below zero are
outside the model's scope. -/
def similarity_search (sch : Schema) (embeddings_table : String)
    (query_embedding : Except String (List Int)) (dist : List Int → List Int → Int)
    (st : PGState) (k : Nat) : Except String (List MockDocument) :=
  let inner : Except String (List MockDocument) :=
    if st.embeddings.length = 0 then
      .error ("No embeddings found in " ++ embeddings_table)
    else
      match query_embedding with
      | .error e => .error e
      | .ok qv =>
        if sch.doc_metadata then
          match searchRows dist qv st k with
          | [] =>
            .error ("Query executed but returned 0 rows. Embeddings: " ++
              toString st.embeddings.length ++ ", Query dim: " ++ toString qv.length)
          | r0 :: rest =>
            .ok ({ page_content := r0.content,
                   metadata :=
                     setKey "debug_info" (.str (debugInfo (r0 :: rest))) r0.metadata } ::
                 rest.map (fun r => ⟨r.content, r.metadata⟩))
        else
          .error "column d.metadata does not exist"
  match inner with
  | .ok res => .ok res
  | .error e => .error ("Search debug: " ++ e)

/-! The Redis component: TisRedisComponent.get_value in
src/langflow/src/tis_components/tis_redis.py. -/

/-- The body of get_value inside its try block: the availability and
blank-key guards return fixed messages; then the database index is parsed,
the client is obtained (an oracle whose error stands for a connection or
lookup failure), and the trimmed key is looked up, a missing or empty
value giving an empty message. -/
def get_value_attempt (redis_available : Bool) (key redis_db : String)
    (client : Except String (String → Option String)) : Except String String :=
  if !redis_available then .ok "❌ Redis not available"
  else if pyStrip key = "" then .ok "❌ No key provided"
  else
    match pyInt redis_db with
    | none => .error "invalid literal for int()"
    | some _ =>
      match client with
      | .error e => .error ("Redis GET failed: " ++ e)
      | .ok store =>
        match store (pyStrip key) with
        | some v => if v = "" then .ok "" else .ok v
        | none => .ok ""

/-- Shallow embedding of TisRedisComponent.get_value: the try body's
message, with any raised failure caught and converted to an empty
message. -/
def get_value (redis_available : Bool) (key redis_db : String)
    (client : Except String (String → Option String)) : String :=
  match get_value_attempt redis_available key redis_db client with
  | .ok s => s
  | .error _ => ""

/-- Claim-side description of the non-blank-key lookup: with a parseable
database index and a working connection the trimmed key's stored string
(empty when absent), and an empty result on any failure. -/
def redisLookupSpec (redis_db : String) (client : Except String (String → Option String))
    (key : String) : String :=
  match pyInt redis_db, client with
  | some _, .ok store => (store (pyStrip key)).getD ""
  | _, _ => ""

/-! Concrete instances used by the closed theorems below, and the ordered
layout descriptor that the fallback cascade is compared against. -/

/-- The done-until-first-success prefix of an ordered layout list: each
layout is attempted in order, and a narrower layout only after the richer
one failed. -/
def triedUntilSuccess {L : Type} (ok : L → Bool) : List L → List L
  | [] => []
  | l :: ls => if ok l then [l] else l :: triedUntilSuccess ok ls

/-- A concrete squared-distance instance for the distance oracle. -/
def sqDist (a b : List Int) : Int :=
  ((a.zip b).map (fun p => (p.1 - p.2) * (p.1 - p.2))).sum

/-- A schema with every column present and every insert accepted. -/
def fullSchema : Schema := ⟨true, true, true, true, true, true, true⟩

/-- A schema whose documents table lacks the metadata column. -/
def narrowDocSchema : Schema := ⟨true, false, true, true, true, true, true⟩

/-- A schema whose documents table rejects all inserts. -/
def noInsertSchema : Schema := ⟨true, true, true, true, false, true, true⟩

/-- The empty relational store. -/
def pgSt0 : PGState := ⟨[], [], [], 1, 1⟩

/-- The store after ensuring the 384-dimension model record once. -/
def pgStA : PGState :=
  ⟨[⟨1, "langflow-384d", some 384, some "Langflow 384D embeddings"⟩], [], [], 2, 1⟩

/-- A sample input document. -/
def lcDoc0 : LCDoc := ⟨"hello world", [("k", Json.str "v")]⟩

/-- An embedding oracle that embeds every text as the vector [0]. -/
def embedConst : List String → Except String (List (List Int)) :=
  fun ts => .ok (ts.map (fun _ => ([0] : List Int)))

/-- A store holding one document with one embedding. -/
def cexState : PGState :=
  ⟨[⟨1, "langflow-1d", some 1, none⟩], [⟨1, some "langflow", "doc", some []⟩],
   [⟨1, some 1, [0]⟩], 2, 2⟩

/-- Stored metadata that already carries the exact debug entry the search
would write for a one-row result at distance 0. -/
def c10Meta : List (String × Json) :=
  [("debug_info", Json.str "Found 1 results, distances: [0]")]

/-- A store whose single document already carries c10Meta. -/
def c10State : PGState :=
  ⟨[⟨1, "langflow-1d", some 1, none⟩], [⟨1, some "langflow", "doc", some c10Meta⟩],
   [⟨1, some 1, [0]⟩], 2, 2⟩

/-- A two-document store with embeddings at distances 0 and 4 from the
query vector [0]. -/
def c10wState : PGState :=
  ⟨[], [⟨1, none, "a", some [("k", Json.str "x")]⟩, ⟨2, none, "b", some []⟩],
   [⟨1, some 1, [0]⟩, ⟨2, some 1, [2]⟩], 1, 3⟩

/-- The nearest row of a search against c10wState with query vector [0]. -/
def c10wRow0 : SearchRow := ⟨"a", [("k", Json.str "x")], 0⟩

/-- The second row of that search, at distance 4. -/
def c10wRow1 : SearchRow := ⟨"b", [], 4⟩

/-- The scenario mapping of the spec: title Hello, code print(1). -/
def mongoObj0 : List (String × Json) :=
  [("title", Json.str "Hello"), ("code", Json.str "print(1)")]

/-- The document _store_document writes for mongoObj0 on an empty store. -/
def mongoDoc0 : MDoc :=
  ⟨"langflow_tis_smart", "Title: Hello | Code: print(1)", 0, mongoObj0⟩

/-- The collection state after storing mongoObj0 in the empty store. -/
def mongoSt1 : MongoState := ⟨[mongoDoc0], 1⟩


/-! Helper lemmas. -/

theorem parseJson_empty : parseJson "" = none := rfl

theorem find?_append_of_none {α : Type} (p : α → Bool) {l1 : List α} (l2 : List α)
    (h : l1.find? p = none) : (l1 ++ l2).find? p = l2.find? p := by
  induction l1 with
  | nil => simp
  | cons a t ih =>
    cases hpa : p a
    · rw [List.find?_cons_of_neg _ (by simp [hpa])] at h
      rw [List.cons_append, List.find?_cons_of_neg _ (by simp [hpa])]
      exact ih h
    · rw [List.find?_cons_of_pos _ hpa] at h
      exact absurd h (by simp)

theorem joinSep_length_head (sep x : String) (xs : List String) :
    x.length ≤ (joinSep sep (x :: xs)).length := by
  cases xs with
  | nil => simp [joinSep]
  | cons y ys =>
    simp [joinSep, String.length_append]
    omega

theorem dumps_obj_length_pos (o : List (String × Json)) : 0 < (dumps (Json.obj o)).length := by
  have h1 : dumps (Json.obj o) = "\x7b" ++ joinComma (dumpsObj o) ++ "\x7d" := by
    simp [dumps]
  have h2 : ("\x7b" : String).length = 1 := rfl
  rw [h1]
  simp [String.length_append, h2]

theorem claimParts_cons_none {k lab : String} {tail : List (String × String)}
    {o : List (String × Json)} (hl : lookupKey o k = none) :
    claimParts ((k, lab) :: tail) o = claimParts tail o := by
  simp [claimParts, hl]

theorem claimParts_cons_some {k lab : String} {tail : List (String × String)}
    {o : List (String × Json)} {v : Json} (hl : lookupKey o k = some v) :
    claimParts ((k, lab) :: tail) o =
      (claimField k v).bind (fun s =>
        (claimParts tail o).bind (fun tl => .ok ((lab ++ ": " ++ s) :: tl))) := by
  simp only [claimParts, hl]
  cases claimField k v with
  | error e => rfl
  | ok s =>
    cases claimParts tail o with
    | error e => rfl
    | ok tl => rfl

theorem claimParts_mem_form :
    ∀ (ks : List (String × String)) (o : List (String × Json)) (ps : List String),
      claimParts ks o = .ok ps → ∀ p ∈ ps, ∃ kv ∈ ks, ∃ rest : String, p = kv.2 ++ ": " ++ rest := by
  intro ks
  induction ks with
  | nil =>
    intro o ps h p hp
    simp [claimParts] at h
    subst h
    simp at hp
  | cons kl tail ih =>
    intro o ps h p hp
    obtain ⟨k, lab⟩ := kl
    cases hl : lookupKey o k with
    | none =>
      rw [claimParts_cons_none hl] at h
      obtain ⟨kv, hkv, r, hr⟩ := ih o ps h p hp
      exact ⟨kv, by simp [hkv], r, hr⟩
    | some v =>
      rw [claimParts_cons_some hl] at h
      cases hf : claimField k v with
      | error e => rw [hf] at h; exact absurd h (by simp [Except.bind])
      | ok s =>
        rw [hf] at h
        cases ht : claimParts tail o with
        | error e => rw [ht] at h; exact absurd h (by simp [Except.bind])
        | ok tl =>
          rw [ht] at h
          simp [Except.bind] at h
          subst h
          rcases List.mem_cons.mp hp with hp | hp
          · exact ⟨(k, lab), by simp, s, by simp [hp]⟩
          · obtain ⟨kv, hkv, r, hr⟩ := ih o tl ht p hp
            exact ⟨kv, by simp [hkv], r, hr⟩

theorem claimKeys_labels : ∀ kv ∈ claimKeys, 0 < kv.2.length := by decide

set_option maxHeartbeats 2000000 in
theorem extract_eq_claim (o : List (String × Json)) :
    extract_content o = claimDerivedContent o := by
  cases h6 : lookupKey o "tags" with
  | none =>
    cases h1 : lookupKey o "title" <;> cases h2 : lookupKey o "description" <;>
      cases h3 : lookupKey o "code" <;> cases h4 : lookupKey o "content" <;>
      cases h5 : lookupKey o "language" <;>
      ((try simp [extract_content, claimDerivedContent, claimParts, claimField, claimKeys,
        h1, h2, h3, h4, h5, h6, Except.bind]); (try exact rfl))
  | some v =>
    cases h7 : renderTags v with
    | error e =>
      cases h1 : lookupKey o "title" <;> cases h2 : lookupKey o "description" <;>
        cases h3 : lookupKey o "code" <;> cases h4 : lookupKey o "content" <;>
        cases h5 : lookupKey o "language" <;>
        ((try simp [extract_content, claimDerivedContent, claimParts, claimField, claimKeys,
          h1, h2, h3, h4, h5, h6, h7, Except.bind]); (try exact rfl))
    | ok t =>
      cases h1 : lookupKey o "title" <;> cases h2 : lookupKey o "description" <;>
        cases h3 : lookupKey o "code" <;> cases h4 : lookupKey o "content" <;>
        cases h5 : lookupKey o "language" <;>
        ((try simp [extract_content, claimDerivedContent, claimParts, claimField, claimKeys,
          h1, h2, h3, h4, h5, h6, h7, Except.bind]); (try exact rfl))

/-- C1 (amended): the classifier returns empty for empty or whitespace-only
input; store with the parsed value exactly when the stripped text parses as
JSON (any JSON value, a non-mapping included); and search carrying the
stripped text otherwise. -/
theorem detect_intent_classification (s : String) :
    (pyStrip s = "" → detect_intent s = .empty) ∧
    (∀ j, parseJson (pyStrip s) = some j → detect_intent s = .store j) ∧
    (pyStrip s ≠ "" → parseJson (pyStrip s) = none →
      detect_intent s = .search (pyStrip s)) := by
  refine ⟨fun h => by simp [detect_intent, h], fun j h => ?_, fun hne h => ?_⟩
  · by_cases htrim : pyStrip s = ""
    · rw [htrim] at h
      rw [parseJson_empty] at h
      exact absurd h (by simp)
    · simp only [detect_intent, htrim, if_false]
      split <;> simp [h]
  · simp only [detect_intent, hne, if_false]
    split <;> simp [h]

/-- C1 counterexample: the bare JSON number 42 is classified store with the
parsed value, not search as the claim states; and a search result carries
the stripped text, not the original text. -/
theorem detect_intent_claim_counterexample :
    detect_intent "42" = Intent.store (Json.num 42) ∧
    detect_intent "42" ≠ Intent.search "42" ∧
    detect_intent " x y " = Intent.search "x y" ∧
    detect_intent " x y " ≠ Intent.search " x y " := by
  refine ⟨rfl, by decide, rfl, by decide⟩

/-- C1 witness: the classification theorem at concrete inputs of all three
kinds. -/
theorem detect_intent_classification_witness :
    detect_intent "   " = Intent.empty ∧
    detect_intent " [1, 2] " = Intent.store (Json.arr [Json.num 1, Json.num 2]) ∧
    detect_intent "redis connection" = Intent.search "redis connection" :=
  ⟨(detect_intent_classification "   ").1 (by decide),
   (detect_intent_classification " [1, 2] ").2.1 (Json.arr [Json.num 1, Json.num 2]) (by decide),
   (detect_intent_classification "redis connection").2.2 (by decide) (by decide)⟩

/-- C5: the derived content string agrees with the claim's derivation (the
recognized keys present, in the fixed order title, description, code,
content, language, tags, each with its label, joined by the bar separator,
with the raw-serialization fallback), and whenever the derivation succeeds
the result is nonempty. -/
theorem extract_content_spec (o : List (String × Json)) :
    extract_content o = claimDerivedContent o ∧
    ∀ s, extract_content o = .ok s → s ≠ "" := by
  have heq : extract_content o = claimDerivedContent o := extract_eq_claim o
  refine ⟨heq, fun s hs => ?_⟩
  rw [heq] at hs
  cases hps : claimParts claimKeys o with
  | error e =>
    rw [show claimDerivedContent o = Except.error e from by
      simp [claimDerivedContent, hps, Except.bind]] at hs
    exact absurd hs (by simp)
  | ok ps =>
    have hs2 : s = joinSep " | " (if ps = [] then [dumps (.obj o)] else ps) := by
      rw [show claimDerivedContent o =
          Except.ok (joinSep " | " (if ps = [] then [dumps (.obj o)] else ps)) from by
        simp [claimDerivedContent, hps, Except.bind]] at hs
      injection hs with h2
      exact h2.symm
    cases hps2 : ps with
    | nil =>
      rw [hps2] at hs2
      simp [joinSep] at hs2
      intro h0
      have hpos := dumps_obj_length_pos o
      rw [← hs2, h0] at hpos
      simp at hpos
    | cons p t =>
      rw [hps2] at hs2
      simp only [List.cons_ne_nil, if_false] at hs2
      obtain ⟨kv, hkv, r, hr⟩ :=
        claimParts_mem_form claimKeys o ps hps p (by simp [hps2])
      have hlab := claimKeys_labels kv hkv
      have hple : p.length ≤ s.length := by
        rw [hs2]
        exact joinSep_length_head " | " p t
      have hppos : 0 < p.length := by
        have hplen : p.length = kv.2.length + (": " : String).length + r.length := by
          rw [hr]
          simp [String.length_append]
        have hcolon : (": " : String).length = 2 := rfl
        omega
      intro h0
      rw [h0] at hple
      simp at hple
      omega

/-- C5 witness: the spec scenario: the mapping parsed from the scenario's
JSON text derives exactly the expected content string, which is nonempty. -/
theorem extract_content_spec_witness :
    extract_content mongoObj0 = Except.ok "Title: Hello | Code: print(1)" ∧
    parseJson "\x7b\"title\": \"Hello\", \"code\": \"print(1)\"\x7d" = some (Json.obj mongoObj0) ∧
    ("Title: Hello | Code: print(1)" : String) ≠ "" :=
  ⟨rfl, rfl, (extract_content_spec mongoObj0).2 "Title: Hello | Code: print(1)" rfl⟩

/-- C8 (amended): the lookup never raises: a blank or whitespace-only key
short-circuits to the fixed no-key message; otherwise the result is the
stripped key's stored string (empty when the key is absent or its value
empty) under a parseable database index and working connection, and an
empty message on any connection, lookup or configuration failure. -/
theorem get_value_spec (key redis_db : String)
    (client : Except String (String → Option String)) :
    get_value true key redis_db client =
      (if pyStrip key = "" then "❌ No key provided" else redisLookupSpec redis_db client key) := by
  by_cases hk : pyStrip key = ""
  · simp [get_value, get_value_attempt, hk]
  · cases hdb : pyInt redis_db with
    | none => simp [get_value, get_value_attempt, hk, hdb, redisLookupSpec]
    | some n =>
      cases client with
      | error e => simp [get_value, get_value_attempt, hk, hdb, redisLookupSpec]
      | ok store =>
        cases hv : store (pyStrip key) with
        | none => simp [get_value, get_value_attempt, hk, hdb, hv, redisLookupSpec]
        | some v =>
          by_cases hve : v = "" <;>
            simp [get_value, get_value_attempt, hk, hdb, hv, hve, redisLookupSpec]

/-- C8 counterexample: for the blank key (absent from the store) the
component returns the fixed no-key error message, not an empty message as
the claim states. -/
theorem get_value_blank_key_counterexample :
    get_value true "" "0" (.ok (fun _ => none)) = "❌ No key provided" ∧
    get_value true "" "0" (.ok (fun _ => none)) ≠ "" :=
  ⟨rfl, by decide⟩

/-- C9: ensuring the embedding-model record twice in sequence yields the
same record identity both times, the second call finding the record by its
derived name without creating another one (the state is unchanged). -/
theorem ensure_model_exists_idempotent (sch : Schema) (dim : Int) (st st1 : PGState) (i : Nat)
    (h : ensure_model_exists sch dim st = .ok (i, st1)) :
    ensure_model_exists sch dim st1 = .ok (i, st1) := by
  unfold ensure_model_exists at h
  cases hf : st.models.find? (fun m => m.name = modelName dim) with
  | some m =>
    rw [hf] at h
    injection h with h2
    injection h2 with ha hb
    subst ha
    subst hb
    unfold ensure_model_exists
    rw [hf]
  | none =>
    rw [hf] at h
    by_cases h1 : (sch.model_dim && sch.model_insert_ok) = true
    · rw [if_pos h1] at h
      injection h with h2
      injection h2 with ha hb
      subst ha
      subst hb
      unfold ensure_model_exists
      simp [hf, List.find?]
    · rw [if_neg h1] at h
      by_cases h2 : sch.model_insert_ok = true
      · rw [if_pos h2] at h
        injection h with h3
        injection h3 with ha hb
        subst ha
        subst hb
        unfold ensure_model_exists
        simp [hf, List.find?]
      · rw [if_neg h2] at h
        exact absurd h (by simp)

/-- C9 witness: ensuring the 384-dimension model twice on the empty store
returns identity 1 both times and leaves the store unchanged after the
first call. -/
theorem ensure_model_exists_idempotent_witness :
    ensure_model_exists fullSchema 384 pgSt0 = .ok (1, pgStA) ∧
    ensure_model_exists fullSchema 384 pgStA = .ok (1, pgStA) :=
  ⟨rfl, ensure_model_exists_idempotent fullSchema 384 pgSt0 pgStA 1 rfl⟩

theorem find?_setKey (k : String) (v : Json) (l : List (String × Json)) :
    (setKey k v l).find? (fun p => p.1 = k) = some (k, v) := by
  induction l with
  | nil =>
    rw [show setKey k v [] = [(k, v)] from rfl]
    rw [List.find?_cons_of_pos _ (by simp)]
  | cons kv t ih =>
    obtain ⟨k0, v0⟩ := kv
    by_cases h : k0 = k
    · rw [show setKey k v ((k0, v0) :: t) = (k, v) :: t from by simp [setKey, h]]
      rw [List.find?_cons_of_pos _ (by simp)]
    · rw [show setKey k v ((k0, v0) :: t) = (k0, v0) :: setKey k v t from by simp [setKey, h]]
      rw [List.find?_cons_of_neg _ (by simp [h])]
      exact ih

theorem lookupKey_setKey (k : String) (v : Json) (l : List (String × Json)) :
    lookupKey (setKey k v l) k = some v := by
  simp [lookupKey, find?_setKey]

theorem length_filterMap_of_isSome {α β : Type} (f : α → Option β) :
    ∀ l : List α, (∀ a ∈ l, (f a).isSome) → (l.filterMap f).length = l.length := by
  intro l
  induction l with
  | nil => simp
  | cons a t ih =>
    intro h
    obtain ⟨b, hb⟩ := Option.isSome_iff_exists.mp (h a (by simp))
    rw [List.filterMap_cons, hb]
    simp [ih (fun x hx => h x (by simp [hx]))]

theorem joinRows_length (dist : List Int → List Int → Int) (qv : List Int) (st : PGState)
    (horph : NoOrphans st) : (joinRows dist qv st).length = st.embeddings.length := by
  apply length_filterMap_of_isSome
  intro e he
  obtain ⟨d, hd, hid⟩ := horph e he
  cases hf : st.documents.find? (fun d2 => d2.id = e.document_id) with
  | some x => rfl
  | none =>
    rw [List.find?_eq_none] at hf
    exact absurd (by simpa using hid) (by simpa using hf d hd)

/-- C7: when the embeddings table holds no embeddings at all, the searcher
fails with the descriptive not-yet-populated error naming the embeddings
table instead of returning an empty result. -/
theorem similarity_search_empty_corpus (sch : Schema) (tbl : String)
    (qe : Except String (List Int)) (dist : List Int → List Int → Int)
    (st : PGState) (k : Nat) (h : st.embeddings = []) :
    similarity_search sch tbl qe dist st k =
      .error ("Search debug: " ++ ("No embeddings found in " ++ tbl)) := by
  simp [similarity_search, h]

/-- C7 witness: the empty store with any query raises the descriptive
error naming the configured embeddings table. -/
theorem similarity_search_empty_corpus_witness :
    similarity_search fullSchema "embeddings_d384" (.ok [0]) sqDist pgSt0 4 =
      .error "Search debug: No embeddings found in embeddings_d384" :=
  similarity_search_empty_corpus fullSchema "embeddings_d384" (.ok [0]) sqDist pgSt0 4 rfl

/-- C2 counterexample: on a one-item corpus, K = 0 makes the searcher raise
the returned-0-rows error instead of yielding an empty sequence as the
claim states. -/
theorem similarity_search_k0_counterexample :
    similarity_search fullSchema "embeddings_d384" (.ok [0]) sqDist cexState 0 =
      .error "Search debug: Query executed but returned 0 rows. Embeddings: 1, Query dim: 1" :=
  rfl

/-- C2 (amended): K = 0 always raises an error; K at least the corpus size
(with a working query embedding, a metadata column, and no orphaned
vectors) returns the whole corpus, nearest first. -/
theorem similarity_search_bounds (sch : Schema) (tbl : String)
    (qe : Except String (List Int)) (dist : List Int → List Int → Int)
    (st : PGState) (k : Nat) (qv : List Int)
    (hne : st.embeddings ≠ []) (hq : qe = .ok qv) (hmeta : sch.doc_metadata = true)
    (horph : NoOrphans st) (hk : st.embeddings.length ≤ k) :
    (∃ msg, similarity_search sch tbl qe dist st 0 = .error msg) ∧
    (∃ res, similarity_search sch tbl qe dist st k = .ok res ∧
      res.length = st.embeddings.length ∧
      (∀ row ∈ joinRows dist qv st, row.content ∈ res.map (fun doc => doc.page_content)) ∧
      List.Pairwise (fun a b => a.distance ≤ b.distance) (searchRows dist qv st k)) := by
  have hlen0 : ¬ st.embeddings.length = 0 := by simpa [List.length_eq_zero] using hne
  have hjoin := joinRows_length dist qv st horph
  have hsorted : List.Pairwise (fun a b : SearchRow => a.distance ≤ b.distance)
      (sortRows (joinRows dist qv st)) := by
    haveI : IsTotal SearchRow (fun a b => a.distance ≤ b.distance) :=
      ⟨fun a b => Int.le_total _ _⟩
    haveI : IsTrans SearchRow (fun a b => a.distance ≤ b.distance) :=
      ⟨fun a b c hab hbc => le_trans hab hbc⟩
    exact List.sorted_insertionSort _ _
  have htake : searchRows dist qv st k = sortRows (joinRows dist qv st) := by
    unfold searchRows
    apply List.take_of_length_le
    simp [sortRows, hjoin]
    omega
  have hlen2 : (searchRows dist qv st k).length = st.embeddings.length := by
    rw [htake]
    simp [sortRows, hjoin]
  constructor
  · refine ⟨"Search debug: " ++ ("Query executed but returned 0 rows. Embeddings: " ++
      toString st.embeddings.length ++ ", Query dim: " ++ toString qv.length), ?_⟩
    simp [similarity_search, hlen0, hq, hmeta, searchRows]
  · cases hrows : searchRows dist qv st k with
    | nil => rw [hrows] at hlen2; exact absurd hlen2.symm hlen0
    | cons r0 rest =>
      refine ⟨{ page_content := r0.content,
                metadata := setKey "debug_info" (.str (debugInfo (r0 :: rest))) r0.metadata } ::
              rest.map (fun r => ⟨r.content, r.metadata⟩), ?_, ?_, ?_, ?_⟩
      · simp [similarity_search, hlen0, hq, hmeta, hrows]
      · rw [← hlen2, hrows]
        simp
      · intro row hrow
        have hmem : row ∈ r0 :: rest := by
          rw [← hrows, htake]
          simp [sortRows, hrow]
        rcases List.mem_cons.mp hmem with hmem | hmem
        · subst hmem
          simp
        · right
          simp only [List.map_map]
          exact List.mem_map_of_mem _ hmem
      · rw [← hrows, htake]
        exact hsorted

/-- C2 witness: the bounds theorem at the one-item corpus with K = 2. -/
theorem similarity_search_bounds_witness :
    (∃ msg, similarity_search fullSchema "e" (.ok [0]) sqDist cexState 0 = .error msg) ∧
    (∃ res, similarity_search fullSchema "e" (.ok [0]) sqDist cexState 2 = .ok res ∧
      res.length = cexState.embeddings.length ∧
      (∀ row ∈ joinRows sqDist [0] cexState, row.content ∈ res.map (fun doc => doc.page_content)) ∧
      List.Pairwise (fun a b => a.distance ≤ b.distance) (searchRows sqDist [0] cexState 2)) :=
  similarity_search_bounds fullSchema "e" (.ok [0]) sqDist cexState 2 [0]
    (by decide) rfl rfl (by unfold NoOrphans; decide) (by decide)

/-- C10 counterexample: when the stored metadata already holds the exact
debug entry the search writes, the first result's metadata is identical to
the stored metadata, so the claimed inequality fails. -/
theorem similarity_search_debug_counterexample :
    similarity_search fullSchema "e" (.ok [0]) sqDist c10State 4 =
      .ok [⟨"doc", c10Meta⟩] ∧
    c10State.documents.map (fun d => d.metadata) = [some c10Meta] :=
  ⟨rfl, rfl⟩

/-- C10 (amended): a nonempty search result has the debug entry written
into the first result's metadata (count and distances), every other result
keeps its stored metadata, and the first result's metadata differs from
the stored metadata except when the stored metadata already maps the debug
key to that exact string. -/
theorem similarity_search_debug_mutation (sch : Schema) (tbl : String)
    (qe : Except String (List Int)) (dist : List Int → List Int → Int)
    (st : PGState) (k : Nat) (qv : List Int) (r0 : SearchRow) (rest : List SearchRow)
    (hq : qe = .ok qv) (hmeta : sch.doc_metadata = true) (hne : st.embeddings ≠ [])
    (hrows : searchRows dist qv st k = r0 :: rest) :
    similarity_search sch tbl qe dist st k =
      .ok ({ page_content := r0.content,
             metadata := setKey "debug_info" (.str (debugInfo (r0 :: rest))) r0.metadata } ::
           rest.map (fun r => ⟨r.content, r.metadata⟩)) ∧
    lookupKey (setKey "debug_info" (.str (debugInfo (r0 :: rest))) r0.metadata) "debug_info" =
      some (.str (debugInfo (r0 :: rest))) ∧
    (lookupKey r0.metadata "debug_info" ≠ some (.str (debugInfo (r0 :: rest))) →
      setKey "debug_info" (.str (debugInfo (r0 :: rest))) r0.metadata ≠ r0.metadata) := by
  have hlen0 : ¬ st.embeddings.length = 0 := by simpa [List.length_eq_zero] using hne
  refine ⟨by simp [similarity_search, hlen0, hq, hmeta, hrows], lookupKey_setKey _ _ _, ?_⟩
  intro hneq heq
  apply hneq
  rw [← heq]
  exact lookupKey_setKey _ _ _

/-- C10 witness: the mutation theorem at a two-row search whose stored
metadata lacks the debug key, so the first result's metadata differs. -/
theorem similarity_search_debug_mutation_witness :
    similarity_search fullSchema "e" (.ok [0]) sqDist c10wState 4 =
      .ok ({ page_content := c10wRow0.content,
             metadata := setKey "debug_info" (.str (debugInfo (c10wRow0 :: [c10wRow1])))
               c10wRow0.metadata } ::
           [c10wRow1].map (fun r => ⟨r.content, r.metadata⟩)) ∧
    setKey "debug_info" (.str (debugInfo (c10wRow0 :: [c10wRow1]))) c10wRow0.metadata ≠
      c10wRow0.metadata :=
  have h := similarity_search_debug_mutation fullSchema "e" (.ok [0]) sqDist c10wState 4 [0]
    c10wRow0 [c10wRow1] rfl rfl (by decide) rfl
  ⟨h.1, h.2.2 (by decide)⟩

theorem docRowFor_id (source_name : String) (st : PGState) (d : LCDoc) (L : DocLayout) :
    (docRowFor source_name st d L).id = st.next_doc_id := by
  cases L <;> rfl

theorem docRowFor_content (source_name : String) (st : PGState) (d : LCDoc) (L : DocLayout) :
    (docRowFor source_name st d L).content = d.page_content := by
  cases L <;> rfl

/-- C6: both inserters try their layouts richest first, a narrower layout
exactly when the richer ones failed (the attempted-layout trace equals the
tried-until-first-success prefix of the ordered layout list), and a
successful insert returns the new row's identity, created under the last
attempted (successful) layout. -/
theorem insert_layout_fallback (sch : Schema) (source_name : String) (st st2 : PGState)
    (d : LCDoc) (document_id model_id : Nat) (v : List Int) :
    ((insert_document sch source_name st d).2 =
      triedUntilSuccess (docLayoutOk sch) [.rich, .narrow, .minimal]) ∧
    (∀ i st1, (insert_document sch source_name st d).1 = .ok (i, st1) →
      i = st.next_doc_id ∧
      ∃ L, (insert_document sch source_name st d).2.getLast? = some L ∧
        docLayoutOk sch L = true ∧ st1 = pushDoc st (docRowFor source_name st d L)) ∧
    ((insert_embedding sch st2 document_id model_id v).2 =
      triedUntilSuccess (embLayoutOk sch) [.full, .narrow]) ∧
    (∀ st3, (insert_embedding sch st2 document_id model_id v).1 = .ok st3 →
      ∃ L, (insert_embedding sch st2 document_id model_id v).2.getLast? = some L ∧
        embLayoutOk sch L = true ∧
        st3 = { st2 with embeddings := st2.embeddings ++
          [⟨document_id, if L = EmbLayout.full then some model_id else none, v⟩] }) := by
  refine ⟨?_, ?_, ?_, ?_⟩
  · by_cases hr : docLayoutOk sch .rich = true <;> by_cases hn : docLayoutOk sch .narrow = true <;>
      by_cases hm : docLayoutOk sch .minimal = true <;>
      simp [insert_document, triedUntilSuccess, hr, hn, hm]
  · intro i st1 h
    by_cases hr : docLayoutOk sch .rich = true
    · rw [show insert_document sch source_name st d =
          (.ok (st.next_doc_id, pushDoc st (docRowFor source_name st d .rich)), [.rich]) from by
        simp [insert_document, hr]] at h ⊢
      simp at h
      obtain ⟨rfl, rfl⟩ := h
      exact ⟨rfl, .rich, by simp, hr, rfl⟩
    · by_cases hn : docLayoutOk sch .narrow = true
      · rw [show insert_document sch source_name st d =
            (.ok (st.next_doc_id, pushDoc st (docRowFor source_name st d .narrow)),
              [.rich, .narrow]) from by
          simp [insert_document, hr, hn]] at h ⊢
        simp at h
        obtain ⟨rfl, rfl⟩ := h
        exact ⟨rfl, .narrow, by simp, hn, rfl⟩
      · by_cases hm : docLayoutOk sch .minimal = true
        · rw [show insert_document sch source_name st d =
              (.ok (st.next_doc_id, pushDoc st (docRowFor source_name st d .minimal)),
                [.rich, .narrow, .minimal]) from by
            simp [insert_document, hr, hn, hm]] at h ⊢
          simp at h
          obtain ⟨rfl, rfl⟩ := h
          exact ⟨rfl, .minimal, by simp, hm, rfl⟩
        · rw [show insert_document sch source_name st d =
              (.error "documents insert failed", [.rich, .narrow, .minimal]) from by
            simp [insert_document, hr, hn, hm]] at h
          simp at h
  · by_cases hf : embLayoutOk sch .full = true <;> by_cases hw : embLayoutOk sch .narrow = true <;>
      simp [insert_embedding, triedUntilSuccess, hf, hw]
  · intro st3 h
    by_cases hf : embLayoutOk sch .full = true
    · rw [show insert_embedding sch st2 document_id model_id v =
          (.ok { st2 with embeddings :=
              st2.embeddings ++ [⟨document_id, some model_id, v⟩] }, [.full]) from by
        simp [insert_embedding, hf]] at h ⊢
      simp at h
      subst h
      exact ⟨.full, by simp, hf, by simp⟩
    · by_cases hw : embLayoutOk sch .narrow = true
      · rw [show insert_embedding sch st2 document_id model_id v =
            (.ok { st2 with embeddings :=
                st2.embeddings ++ [⟨document_id, none, v⟩] }, [.full, .narrow]) from by
          simp [insert_embedding, hf, hw]] at h ⊢
        simp at h
        subst h
        refine ⟨.narrow, by simp, hw, by simp⟩
      · rw [show insert_embedding sch st2 document_id model_id v =
            (.error "embeddings insert failed", [.full, .narrow]) from by
          simp [insert_embedding, hf, hw]] at h
        simp at h

/-- C6 witness: against a schema lacking the documents metadata column,
the document insert tries rich then narrow and succeeds under narrow with
the new row id; against the full schema the embedding insert stops at its
full layout. -/
theorem insert_layout_fallback_witness :
    (insert_document narrowDocSchema "langflow" pgSt0 lcDoc0).2 =
      [DocLayout.rich, DocLayout.narrow] ∧
    (1 = pgSt0.next_doc_id ∧
      ∃ L, (insert_document narrowDocSchema "langflow" pgSt0 lcDoc0).2.getLast? = some L ∧
        docLayoutOk narrowDocSchema L = true ∧
        pushDoc pgSt0 (docRowFor "langflow" pgSt0 lcDoc0 DocLayout.narrow) =
          pushDoc pgSt0 (docRowFor "langflow" pgSt0 lcDoc0 L)) ∧
    (insert_embedding fullSchema pgSt0 1 1 [0]).2 = [EmbLayout.full] :=
  have h := insert_layout_fallback narrowDocSchema "langflow" pgSt0 pgSt0 lcDoc0 1 1 [0]
  have h2 := insert_layout_fallback fullSchema "langflow" pgSt0 pgSt0 lcDoc0 1 1 [0]
  ⟨h.1.trans (by decide),
   h.2.1 1 (pushDoc pgSt0 (docRowFor "langflow" pgSt0 lcDoc0 DocLayout.narrow)) rfl,
   h2.2.2.1.trans (by decide)⟩

theorem ensure_model_docs_embs (sch : Schema) (dim : Int) (st : PGState) (mid : Nat)
    (st1 : PGState) (h : ensure_model_exists sch dim st = .ok (mid, st1)) :
    st1.documents = st.documents ∧ st1.embeddings = st.embeddings := by
  unfold ensure_model_exists at h
  cases hf : st.models.find? (fun m => m.name = modelName dim) with
  | some m =>
    rw [hf] at h
    injection h with h2
    injection h2 with ha hb
    subst hb
    exact ⟨rfl, rfl⟩
  | none =>
    rw [hf] at h
    by_cases h1 : (sch.model_dim && sch.model_insert_ok) = true
    · rw [if_pos h1] at h
      injection h with h2
      injection h2 with ha hb
      subst hb
      exact ⟨rfl, rfl⟩
    · rw [if_neg h1] at h
      by_cases h2 : sch.model_insert_ok = true
      · rw [if_pos h2] at h
        injection h with h3
        injection h3 with ha hb
        subst hb
        exact ⟨rfl, rfl⟩
      · rw [if_neg h2] at h
        exact absurd h (by simp)

theorem insert_document_inv (sch : Schema) (source_name : String) (st : PGState) (d : LCDoc)
    (i : Nat) (st1 : PGState) (h : (insert_document sch source_name st d).1 = .ok (i, st1)) :
    i = st.next_doc_id ∧ ∃ L, st1 = pushDoc st (docRowFor source_name st d L) := by
  unfold insert_document at h
  by_cases hr : docLayoutOk sch .rich = true
  · rw [if_pos hr] at h
    simp at h
    exact ⟨h.1.symm, .rich, h.2.symm⟩
  · rw [if_neg hr] at h
    by_cases hn : docLayoutOk sch .narrow = true
    · rw [if_pos hn] at h
      simp at h
      exact ⟨h.1.symm, .narrow, h.2.symm⟩
    · rw [if_neg hn] at h
      by_cases hm : docLayoutOk sch .minimal = true
      · rw [if_pos hm] at h
        simp at h
        exact ⟨h.1.symm, .minimal, h.2.symm⟩
      · rw [if_neg hm] at h
        simp at h

theorem insert_embedding_inv (sch : Schema) (st2 : PGState) (document_id model_id : Nat)
    (v : List Int) (st3 : PGState)
    (h : (insert_embedding sch st2 document_id model_id v).1 = .ok st3) :
    ∃ mo, st3 = { st2 with embeddings := st2.embeddings ++ [⟨document_id, mo, v⟩] } := by
  unfold insert_embedding at h
  by_cases hf : embLayoutOk sch .full = true
  · rw [if_pos hf] at h
    simp at h
    exact ⟨some model_id, h.symm⟩
  · rw [if_neg hf] at h
    by_cases hn : embLayoutOk sch .narrow = true
    · rw [if_pos hn] at h
      simp at h
      exact ⟨none, h.symm⟩
    · rw [if_neg hn] at h
      simp at h

theorem addLoop_no_orphans (sch : Schema) (source_name : String) (mid : Nat) :
    ∀ (pairs : List (LCDoc × List Int)) (st : PGState) (ids : List Nat) (st1 : PGState),
      NoOrphans st → addLoop sch source_name mid st pairs = .ok (ids, st1) → NoOrphans st1 := by
  intro pairs
  induction pairs with
  | nil =>
    intro st ids st1 h0 h
    simp [addLoop] at h
    obtain ⟨-, rfl⟩ := h
    exact h0
  | cons p rest ih =>
    intro st ids st1 h0 h
    obtain ⟨d, v⟩ := p
    unfold addLoop at h
    cases hd : (insert_document sch source_name st d).1 with
    | error e => simp only [hd] at h; exact absurd h (by simp)
    | ok r =>
      obtain ⟨did, stA⟩ := r
      simp only [hd] at h
      cases he : (insert_embedding sch stA did mid v).1 with
      | error e => simp only [he] at h; exact absurd h (by simp)
      | ok stB =>
        simp only [he] at h
        cases hl : addLoop sch source_name mid stB rest with
        | error e => simp only [hl] at h; exact absurd h (by simp)
        | ok r2 =>
          obtain ⟨ids2, stC⟩ := r2
          simp only [hl, Except.ok.injEq, Prod.mk.injEq] at h
          obtain ⟨-, hb⟩ := h
          subst hb
          obtain ⟨hdid, L, hstA⟩ := insert_document_inv sch source_name st d did stA hd
          obtain ⟨mo, hstB⟩ := insert_embedding_inv sch stA did mid v stB he
          have hB : NoOrphans stB := by
            intro e he2
            rw [hstB] at he2
            simp at he2
            rcases he2 with he2 | he2
            · have he3 : e ∈ st.embeddings := by
                rw [hstA] at he2
                exact he2
              obtain ⟨dd, hdd, hdd2⟩ := h0 e he3
              refine ⟨dd, ?_, hdd2⟩
              rw [hstB, hstA]
              simp [pushDoc]
              exact Or.inl hdd
            · refine ⟨docRowFor source_name st d L, ?_, ?_⟩
              · rw [hstB, hstA]
                simp [pushDoc]
              · rw [he2]
                rw [docRowFor_id]
                exact hdid.symm
          exact ih stB ids2 stC hB hl

/-- C4: add_documents is transactional: on any failure (model step,
embedding step, or any insert) the returned state is exactly the entry
state, and the no-orphaned-vectors invariant (every embedding row
references an existing document row) is preserved by every outcome, each
embedding being committed together with its document. -/
theorem add_documents_transactional (sch : Schema) (source_name : String) (dim : Int)
    (embed : List String → Except String (List (List Int))) (st : PGState)
    (documents : List LCDoc) (horph : NoOrphans st) :
    (∀ e st1, add_documents sch source_name dim embed st documents = (.error e, st1) →
      st1 = st) ∧
    NoOrphans (add_documents sch source_name dim embed st documents).2 := by
  by_cases hd : documents = []
  · have hres : add_documents sch source_name dim embed st documents = (.ok [], st) := by
      unfold add_documents
      rw [if_pos hd]
    rw [hres]
    exact ⟨fun e st1 h => by simp at h, horph⟩
  · cases hm : ensure_model_exists sch dim st with
    | error e =>
      have hres : add_documents sch source_name dim embed st documents =
          (.error ("Failed to add documents: " ++ e), st) := by
        unfold add_documents
        rw [if_neg hd]
        simp only [hm]
      rw [hres]
      exact ⟨fun e2 st1 h => by simp at h; exact h.2.symm, horph⟩
    | ok r =>
      obtain ⟨mid, st1⟩ := r
      cases he : embed (documents.map fun doc => doc.page_content) with
      | error e =>
        have hres : add_documents sch source_name dim embed st documents =
            (.error ("Failed to add documents: " ++ e), st) := by
          unfold add_documents
          rw [if_neg hd]
          simp only [hm, he]
        rw [hres]
        exact ⟨fun e2 st2 h => by simp at h; exact h.2.symm, horph⟩
      | ok embs =>
        cases hl : addLoop sch source_name mid st1 (documents.zip embs) with
        | error e =>
          have hres : add_documents sch source_name dim embed st documents =
              (.error ("Failed to add documents: " ++ e), st) := by
            unfold add_documents
            rw [if_neg hd]
            simp only [hm, he, hl]
          rw [hres]
          exact ⟨fun e2 st2 h => by simp at h; exact h.2.symm, horph⟩
        | ok r2 =>
          obtain ⟨ids, st2⟩ := r2
          have hres : add_documents sch source_name dim embed st documents =
              (.ok ids, st2) := by
            unfold add_documents
            rw [if_neg hd]
            simp only [hm, he, hl]
          rw [hres]
          refine ⟨fun e2 st3 h => by simp at h, ?_⟩
          obtain ⟨hdocs, hembs⟩ := ensure_model_docs_embs sch dim st mid st1 hm
          have h1 : NoOrphans st1 := by
            intro e he2
            rw [hembs] at he2
            obtain ⟨dd, hdd, hdd2⟩ := horph e he2
            exact ⟨dd, by rw [hdocs]; exact hdd, hdd2⟩
          exact addLoop_no_orphans sch source_name mid (documents.zip embs) st1 ids st2 h1 hl

/-- C4 witness: a failing insert schema rolls back to the entry state, and
the full schema preserves the no-orphans invariant on a successful batch. -/
theorem add_documents_transactional_witness :
    (add_documents noInsertSchema "langflow" 1 embedConst pgSt0 [lcDoc0]).2 = pgSt0 ∧
    NoOrphans (add_documents fullSchema "langflow" 1 embedConst pgSt0 [lcDoc0]).2 :=
  have h1 := add_documents_transactional noInsertSchema "langflow" 1 embedConst pgSt0 [lcDoc0]
    (by unfold NoOrphans; decide)
  have h2 := add_documents_transactional fullSchema "langflow" 1 embedConst pgSt0 [lcDoc0]
    (by unfold NoOrphans; decide)
  ⟨h1.1 "Failed to add documents: documents insert failed" pgSt0 rfl, h2.2⟩

theorem rxMatch_zero : ∀ s : List Char, rxMatch .zero s = false
  | [] => rfl
  | c :: cs => by
    rw [show rxMatch .zero (c :: cs) = rxMatch (Rx.deriv .zero c) cs from rfl]
    rw [show Rx.deriv .zero c = .zero from rfl]
    exact rxMatch_zero cs

theorem mkCat_zero (r : Rx) : mkCat .zero r = .zero := by cases r <;> rfl

theorem mkCat_eps_lit (cs : List Char) : mkCat .eps (litRx cs) = litRx cs := by
  cases cs <;> rfl

theorem deriv_lit_cons (c : Char) (cs : List Char) (x : Char) :
    Rx.deriv (litRx (c :: cs)) x = if x = c then litRx cs else .zero := by
  by_cases hx : x = c
  · simp [litRx, Rx.deriv, Rx.nullable, hx, mkCat_eps_lit]
  · simp [litRx, Rx.deriv, Rx.nullable, hx, mkCat_zero]

theorem rxMatch_lit : ∀ (s l : List Char), rxMatch (litRx l) s = true ↔ s = l := by
  intro s
  induction s with
  | nil =>
    intro l
    cases l with
    | nil => simp [rxMatch, litRx, Rx.nullable]
    | cons c cs => simp [rxMatch, litRx, Rx.nullable]
  | cons x xs ih =>
    intro l
    cases l with
    | nil =>
      rw [show rxMatch (litRx []) (x :: xs) = rxMatch .zero xs from rfl, rxMatch_zero]
      simp
    | cons c cs =>
      rw [show rxMatch (litRx (c :: cs)) (x :: xs) =
          rxMatch (Rx.deriv (litRx (c :: cs)) x) xs from rfl]
      rw [deriv_lit_cons]
      by_cases hx : x = c
      · rw [if_pos hx, ih cs]
        subst hx
        simp
      · rw [if_neg hx, rxMatch_zero]
        simp [hx]

theorem searchMatch_lit (q s : List Char) :
    searchMatch (litRx q) s = true ↔ ∃ a b, s = a ++ q ++ b := by
  unfold searchMatch
  rw [List.any_eq_true]
  constructor
  · rintro ⟨t, ht, hu⟩
    rw [List.any_eq_true] at hu
    obtain ⟨u, hu2, hm⟩ := hu
    rw [rxMatch_lit] at hm
    subst hm
    rw [List.mem_tails] at ht
    rw [List.mem_inits] at hu2
    obtain ⟨a, ha⟩ := ht
    obtain ⟨b, hb⟩ := hu2
    exact ⟨a, b, by rw [← ha, ← hb, List.append_assoc]⟩
  · rintro ⟨a, b, rfl⟩
    refine ⟨q ++ b, ?_, ?_⟩
    · rw [List.mem_tails]
      exact ⟨a, by rw [List.append_assoc]⟩
    · rw [List.any_eq_true]
      refine ⟨q, ?_, ?_⟩
      · rw [List.mem_inits]
        exact ⟨b, rfl⟩
      · rw [rxMatch_lit]

theorem applyQuant_plain (r : Rx) (cs : List Char) (h : ∀ c ∈ cs, c ∉ rxMeta) :
    applyQuant r cs = (r, cs) := by
  cases cs with
  | nil => rfl
  | cons c rest =>
    have hc := h c (by simp)
    have h1 : c ≠ '*' := fun he => absurd (by decide) (he ▸ hc)
    have h2 : c ≠ '+' := fun he => absurd (by decide) (he ▸ hc)
    have h3 : c ≠ '?' := fun he => absurd (by decide) (he ▸ hc)
    simp [applyQuant, h1, h2, h3]

theorem parseAtom_plain (g : Nat) (c : Char) (rest : List Char) (hc : c ∉ rxMeta) :
    parseRxF (g + 1) .atom (c :: rest) = some (.chr c, rest) := by
  have h1 : c ≠ '(' := fun he => absurd (by decide) (he ▸ hc)
  have h2 : c ≠ '.' := fun he => absurd (by decide) (he ▸ hc)
  have h3 : c ≠ '\\' := fun he => absurd (by decide) (he ▸ hc)
  simp [parseRxF, h1, h2, h3, hc]

theorem parseCat_lit : ∀ (cs : List Char) (fuel : Nat), (∀ c ∈ cs, c ∉ rxMeta) →
    2 * cs.length + 1 ≤ fuel → parseRxF fuel .cat cs = some (litRx cs, []) := by
  intro cs
  induction cs with
  | nil =>
    intro fuel h hfuel
    obtain ⟨f, rfl⟩ : ∃ f, fuel = f + 1 := ⟨fuel - 1, by omega⟩
    rfl
  | cons c rest ih =>
    intro fuel h hfuel
    obtain ⟨f, rfl⟩ : ∃ f, fuel = f + 1 := ⟨fuel - 1, by omega⟩
    obtain ⟨g, rfl⟩ : ∃ g, f = g + 1 := ⟨f - 1, by simp at hfuel; omega⟩
    have hc := h c (by simp)
    have h1 : ¬(c = '|' ∨ c = ')') := by
      rintro (rfl | rfl)
      · exact absurd (by decide) hc
      · exact absurd (by decide) hc
    have hatom := parseAtom_plain g c rest hc
    have hquant := applyQuant_plain (.chr c) rest (fun x hx => h x (by simp [hx]))
    have hrest : parseRxF (g + 1) .cat rest = some (litRx rest, []) := by
      apply ih (g + 1) (fun x hx => h x (by simp [hx]))
      simp at hfuel
      omega
    rw [show parseRxF (g + 1 + 1) RMode.cat (c :: rest) =
        (if c = '|' ∨ c = ')' then some (Rx.eps, c :: rest)
         else
          (parseRxF (g + 1) RMode.atom (c :: rest)).bind (fun p =>
            ((parseRxF (g + 1) RMode.cat (applyQuant p.1 p.2).2).bind (fun p2 =>
              some (Rx.cat (applyQuant p.1 p.2).1 p2.1, p2.2))))) from rfl]
    rw [if_neg h1, hatom]
    simp [Option.bind, hquant, hrest, litRx]

theorem parseAlt_lit (cs : List Char) (fuel : Nat) (h : ∀ c ∈ cs, c ∉ rxMeta)
    (hfuel : 2 * cs.length + 2 ≤ fuel) : parseRxF fuel .alt cs = some (litRx cs, []) := by
  obtain ⟨f, rfl⟩ : ∃ f, fuel = f + 1 := ⟨fuel - 1, by omega⟩
  have hcat := parseCat_lit cs f h (by omega)
  simp [parseRxF, hcat]

theorem parseRx_lit (q : String) (h : rxLiteralPattern q = true) :
    parseRx q = some (litRx q.data) := by
  have h2 : ∀ c ∈ q.data, c ∉ rxMeta := by
    intro c hc
    simpa using List.all_eq_true.mp h c hc
  have h3 := parseAlt_lit q.data (4 * q.data.length + 8) h2 (by omega)
  unfold parseRx parseAltF
  rw [h3]

theorem store_document_inv (st : MongoState) (o : List (String × Json)) (d1 : MDoc)
    (st1 : MongoState) (h : store_document st o = .ok (d1, st1)) :
    d1 = ⟨"langflow_tis_smart", d1.content, st.clock, o⟩ ∧
    extract_content o = .ok d1.content ∧
    st1 = ⟨st.docs ++ [d1], st.clock + 1⟩ := by
  unfold store_document at h
  cases hc : extract_content o with
  | error e => rw [hc] at h; exact absurd h (by simp)
  | ok c =>
    rw [hc] at h
    injection h with h2
    injection h2 with ha hb
    subst ha
    subst hb
    exact ⟨rfl, rfl, rfl⟩

/-- C3 counterexample: the scenario item is stored with derived content
"Title: Hello | Code: print(1)"; the exact (case-insensitive) substring
"print(1)" of that content, used as the search query, is treated as a
regular expression by the search path, so the search returns the empty
result set, not the stored item. -/
theorem mongo_roundtrip_counterexample :
    store_document ⟨[], 0⟩ mongoObj0 = .ok (mongoDoc0, mongoSt1) ∧
    (lowerStr mongoDoc0.content).data =
      "title: hello | code: ".data ++ (lowerStr "print(1)").data ++ [] ∧
    search_documents mongoSt1 "print(1)" "5" = .ok [] :=
  ⟨rfl, rfl, rfl⟩

/-- C3 (amended): a stored item is found (first, in fact) by a subsequent
search whose query is an exact case-insensitive substring of the derived
content and is free of regular-expression metacharacters, under a positive
result limit and a well-formed store. -/
theorem mongo_roundtrip_literal (st : MongoState) (o : List (String × Json))
    (q lim : String) (d1 : MDoc) (st1 : MongoState) (n : Int)
    (hwf : st.Wf) (hstore : store_document st o = .ok (d1, st1))
    (hlit : rxLiteralPattern (lowerStr q) = true)
    (hsub : ∃ a b, (lowerStr d1.content).data = a ++ (lowerStr q).data ++ b)
    (hlim : pyInt lim = some n) (hn : 1 ≤ n) :
    ∃ res, search_documents st1 q lim = .ok res ∧ res.head? = some d1 ∧ d1 ∈ res := by
  obtain ⟨hd1, hcont, hst1⟩ := store_document_inv st o d1 st1 hstore
  have hparse := parseRx_lit (lowerStr q) hlit
  have hmatch : docMatches (litRx (lowerStr q).data) d1 = true := by
    unfold docMatches
    rw [Bool.or_eq_true]
    left
    rw [searchMatch_lit]
    exact hsub
  unfold search_documents
  simp only [hlim, hparse]
  set r := litRx (lowerStr q).data with hr
  set matched := st1.docs.filter (docMatches r) with hmat
  have hd1mem : d1 ∈ matched := by
    rw [hmat, hst1]
    apply List.mem_filter.mpr
    exact ⟨by simp, hmatch⟩
  have hmax : ∀ y ∈ matched, y = d1 ∨ y.created_at < d1.created_at := by
    intro y hy
    have hy2 : y ∈ st1.docs := (List.mem_filter.mp (hmat ▸ hy)).1
    rw [hst1] at hy2
    simp at hy2
    rcases hy2 with hy2 | hy2
    · right
      have hlt := hwf y hy2
      rw [hd1]
      exact hlt
    · left
      exact hy2
  set sorted := sortByRecency matched with hsort
  have hperm : ∀ y : MDoc, y ∈ sorted ↔ y ∈ matched := by
    intro y
    rw [hsort]
    simp [sortByRecency]
  have hpair : List.Pairwise (fun a b : MDoc => b.created_at ≤ a.created_at) sorted := by
    rw [hsort]
    unfold sortByRecency
    haveI : IsTotal MDoc (fun a b => b.created_at ≤ a.created_at) :=
      ⟨fun a b => Nat.le_total _ _⟩
    haveI : IsTrans MDoc (fun a b => b.created_at ≤ a.created_at) :=
      ⟨fun a b c hab hbc => le_trans hbc hab⟩
    exact List.sorted_insertionSort _ _
  cases hs : sorted with
  | nil =>
    exact absurd ((hperm d1).mpr hd1mem) (by simp [hs])
  | cons h0 t0 =>
    have hh0 : h0 = d1 := by
      have hh0mem : h0 ∈ matched := (hperm h0).mp (by simp [hs])
      rcases hmax h0 hh0mem with he | he
      · exact he
      · exfalso
        have hd1s : d1 ∈ sorted := (hperm d1).mpr hd1mem
        rw [hs] at hd1s
        rcases List.mem_cons.mp hd1s with he2 | he2
        · rw [he2] at he
          exact absurd he (lt_irrefl _)
        · have hle := (List.pairwise_cons.mp (hs ▸ hpair)).1 d1 he2
          omega
    obtain ⟨m, hm2⟩ : ∃ m, n.natAbs = m + 1 := ⟨n.natAbs - 1, by omega⟩
    refine ⟨mongoLimit n (h0 :: t0), rfl, ?_, ?_⟩
    · rw [hh0]
      unfold mongoLimit
      rw [if_neg (by omega), hm2]
      simp
    · rw [hh0]
      unfold mongoLimit
      rw [if_neg (by omega), hm2]
      simp

/-- C3 witness: the round-trip theorem at the scenario store with the
metacharacter-free query Code. -/
theorem mongo_roundtrip_literal_witness :
    ∃ res, search_documents mongoSt1 "Code" "5" = .ok res ∧
      res.head? = some mongoDoc0 ∧ mongoDoc0 ∈ res :=
  mongo_roundtrip_literal ⟨[], 0⟩ mongoObj0 "Code" "5" mongoDoc0 mongoSt1 5
    (by intro d hd; simp at hd) rfl (by decide)
    ⟨"title: hello | ".data, ": print(1)".data, by decide⟩ rfl (by decide)
